import Mathlib

/-!
Shallow embedding of the RIFFblock backend staking, NFT and wallet route
handlers (src/api/routes/stakingRoutes.ts, nftRoutes.ts, userRoutes.ts)
over the Prisma data model (prisma/schema.prisma). Database tables are
lists of records; each HTTP handler becomes a pure function from the
database state and the request parameters to a result and the new state.
Timestamps are integers (milliseconds); monetary amounts are integers.
-/

namespace RiffBlock

/-- A row of the Staking table (prisma/schema.prisma, model Staking).
The status column is the string the code stores: "locked", "unlocked"
or "withdrawn". -/
structure Staking where
  id : Nat
  amount : Int
  riffId : Nat
  userId : Nat
  stakedAt : Int
  unlockAt : Int
  royaltiesEarned : Int
  status : String
  deriving DecidableEq, Repr

/-- A row of the Riff table (the fields the staking and mint handlers read). -/
structure Riff where
  id : Nat
  userId : Nat
  deriving DecidableEq, Repr

/-- A row of the NFT table (the fields the staking and mint handlers read);
riffId is unique in the schema, so a riff has at most one NFT. -/
structure NFT where
  id : Nat
  riffId : Nat
  enableStaking : Bool
  ownerId : Nat
  deriving DecidableEq, Repr

/-- A row of the Wallet table; address is unique in the schema. -/
structure Wallet where
  id : Nat
  address : String
  userId : Nat
  deriving DecidableEq, Repr

/-- The database state the embedded handlers touch. -/
structure DB where
  riffs : List Riff
  nfts : List NFT
  stakings : List Staking
  wallets : List Wallet
  deriving DecidableEq, Repr

/-- prisma.staking.findUnique on id. -/
def findStaking (db : DB) (sid : Nat) : Option Staking :=
  db.stakings.find? (fun r => r.id == sid)

/-- prisma.riff.findUnique on id. -/
def findRiff (db : DB) (rid : Nat) : Option Riff :=
  db.riffs.find? (fun r => r.id == rid)

/-- The nft relation included with a riff: the unique NFT row whose riffId
matches. -/
def findNFTByRiff (db : DB) (rid : Nat) : Option NFT :=
  db.nfts.find? (fun n => n.riffId == rid)

/-- prisma.wallet.findUnique on address. -/
def findWalletByAddress (ws : List Wallet) (addr : String) : Option Wallet :=
  ws.find? (fun w => w.address == addr)

/-- prisma.staking.update where id, data status := "withdrawn". -/
def setWithdrawn (rs : List Staking) (sid : Nat) : List Staking :=
  rs.map (fun r => if r.id = sid then { r with status := "withdrawn" } else r)

/-- The outcomes of POST /api/staking/unstake/:id: 404 record not found,
403 not the owner, 400 staking period not over (with the unlock date in
the payload), 200 with the updated record. -/
inductive UnstakeResult where
  | notFound
  | forbidden
  | notOver (unlockAt : Int)
  | ok (rec : Staking)
  deriving DecidableEq, Repr

/-- POST /api/staking/unstake/:id (stakingRoutes.ts lines 93 to 144):
find the record; 404 when absent; 403 when the caller is not the owner;
400 when now < unlockAt; otherwise set status to "withdrawn" and return
the updated record. -/
def unstake (db : DB) (callerId : Nat) (sid : Nat) (now : Int) :
    UnstakeResult × DB :=
  match findStaking db sid with
  | none => (UnstakeResult.notFound, db)
  | some r =>
    if r.userId ≠ callerId then (UnstakeResult.forbidden, db)
    else if now < r.unlockAt then (UnstakeResult.notOver r.unlockAt, db)
    else (UnstakeResult.ok { r with status := "withdrawn" },
          { db with stakings := setWithdrawn db.stakings sid })

/-- The outcomes of POST /api/staking/stake: 404 riff not found, 400 riff
not minted, 400 staking not enabled, 201 with the created record. -/
inductive StakeResult where
  | riffNotFound
  | notMinted
  | stakingDisabled
  | created (rec : Staking)
  deriving DecidableEq, Repr

def msPerDay : Int := 86400000

/-- The handler computes the unlock date as 90 days from now. -/
def lockDays : Int := 90

/-- POST /api/staking/stake (stakingRoutes.ts lines 31 to 90): find the
riff; 404 when absent; 400 when it has no NFT; 400 when enableStaking is
false; otherwise create a staking record with unlockAt = now + 90 days.
The handler performs no validation of amount. newId stands for the id
the database assigns; stakedAt defaults to now. -/
def stake (db : DB) (callerId : Nat) (rid : Nat) (amount : Int) (now : Int)
    (newId : Nat) : StakeResult × DB :=
  match findRiff db rid with
  | none => (StakeResult.riffNotFound, db)
  | some _ =>
    match findNFTByRiff db rid with
    | none => (StakeResult.notMinted, db)
    | some nft =>
      if nft.enableStaking = false then (StakeResult.stakingDisabled, db)
      else
        let newRec : Staking :=
          { id := newId, amount := amount, riffId := rid, userId := callerId,
            stakedAt := now, unlockAt := now + lockDays * msPerDay,
            royaltiesEarned := 0, status := "locked" }
        (StakeResult.created newRec,
         { db with stakings := db.stakings ++ [newRec] })

/-- The records GET /api/staking/stats/:riffId aggregates over: the riff
staking records whose status is not "withdrawn". -/
def statsRecords (db : DB) (rid : Nat) : List Staking :=
  db.stakings.filter (fun r => r.riffId == rid && r.status != "withdrawn")

/-- The JSON body GET /api/staking/stats/:riffId returns. -/
structure StakingStats where
  totalStaked : Int
  stakersCount : Nat
  records : Nat
  deriving DecidableEq, Repr

/-- GET /api/staking/stats/:riffId (stakingRoutes.ts lines 147 to 178):
reduce for the total, a Set for the distinct stakers, length for the
record count. -/
def getStats (db : DB) (rid : Nat) : StakingStats :=
  let recs := statsRecords db rid
  { totalStaked := recs.foldl (fun sum r => sum + r.amount) 0
    stakersCount := ((recs.map (fun r => r.userId)).dedup).length
    records := recs.length }

/-- The claim side of C5: totalStaked as the sum of amount over the riff
records with status not equal to "withdrawn". -/
def totalStakedSpec (db : DB) (rid : Nat) : Int :=
  ((db.stakings.filter
      (fun r => r.riffId == rid && r.status != "withdrawn")).map
    (fun r => r.amount)).sum

/-- The claim side of C5: the number of distinct userIds among the riff
records with status not equal to "withdrawn". -/
def stakerCountSpec (db : DB) (rid : Nat) : Nat :=
  ((db.stakings.filter
      (fun r => r.riffId == rid && r.status != "withdrawn")).map
    (fun r => r.userId)).toFinset.card

/-- The claim side of C5: the number of riff records with status not
equal to "withdrawn". -/
def positionCountSpec (db : DB) (rid : Nat) : Nat :=
  (db.stakings.filter
    (fun r => r.riffId == rid && r.status != "withdrawn")).length

/-- The outcomes of POST /api/users/connect-wallet: 400 wallet already
connected to a user, 200 with the created wallet row. -/
inductive ConnectResult where
  | alreadyConnected
  | connected (w : Wallet)
  deriving DecidableEq, Repr

/-- POST /api/users/connect-wallet (userRoutes.ts lines 100 to 134):
find a wallet with the address; 400 when one exists; otherwise create a
wallet row linking the address to the caller. -/
def connectWallet (db : DB) (callerId : Nat) (addr : String) (newId : Nat) :
    ConnectResult × DB :=
  match findWalletByAddress db.wallets addr with
  | some _ => (ConnectResult.alreadyConnected, db)
  | none =>
    let w : Wallet := { id := newId, address := addr, userId := callerId }
    (ConnectResult.connected w, { db with wallets := db.wallets ++ [w] })

/-- The outcomes of POST /api/nfts/mint: 404 riff not found, 403 not the
owner, 400 riff already minted, 201 with the created NFT row. -/
inductive MintResult where
  | riffNotFound
  | forbidden
  | alreadyMinted
  | minted (n : NFT)
  deriving DecidableEq, Repr

/-- POST /api/nfts/mint (nftRoutes.ts): find the riff; 404 when absent;
403 when the caller does not own it; 400 when an NFT with that riffId
already exists; otherwise create the NFT row. -/
def mintRiffNFT (db : DB) (callerId : Nat) (rid : Nat) (enable : Bool)
    (newId : Nat) : MintResult × DB :=
  match findRiff db rid with
  | none => (MintResult.riffNotFound, db)
  | some riff =>
    if riff.userId ≠ callerId then (MintResult.forbidden, db)
    else
      match findNFTByRiff db rid with
      | some _ => (MintResult.alreadyMinted, db)
      | none =>
        let n : NFT := { id := newId, riffId := rid, enableStaking := enable,
                         ownerId := callerId }
        (MintResult.minted n, { db with nfts := db.nfts ++ [n] })

/-- Modelled from the spec: the repository has no royalty accrual code,
so the Royalty Accrual Engine of spec section 4.3 is embedded from its
words. The positions eligible for a revenue event are those whose status
is not Withdrawn. -/
def eligiblePositions (ps : List Staking) : List Staking :=
  ps.filter (fun r => r.status != "withdrawn")

/-- Modelled from the spec: rounding of the ratio n / d (d positive) to
the nearest integer, half to even. -/
def bround (n : Int) (d : Int) : Int :=
  let q := n / d
  let r := n % d
  if 2 * r < d then q
  else if d < 2 * r then q + 1
  else if q % 2 = 0 then q else q + 1

/-- Modelled from the spec: p beats q for receiving the rounding
leftover when its principal is larger, or equal with an earlier
stakedAt. -/
def betterPos (p q : Staking) : Bool :=
  q.amount < p.amount || (p.amount == q.amount && p.stakedAt < q.stakedAt)

/-- Modelled from the spec: the position with the largest principal,
tie-break earliest stakedAt; a left scan keeping the current best, so of
equals the earliest in list order is kept. -/
def bestPos : Staking → List Staking → Staking
  | b, [] => b
  | b, p :: rest => bestPos (if betterPos p b then p else b) rest

/-- Modelled from the spec: add the leftover x to the share of the first
listed credit for the chosen best position. -/
def creditLeftover (best : Staking) (x : Int) :
    List (Staking × Int) → List (Staking × Int)
  | [] => []
  | (p, s) :: rest =>
    if p = best then (p, s + x) :: rest
    else (p, s) :: creditLeftover best x rest

/-- The result of distributing one revenue event: a credited share per
eligible position, and the unallocated part of the staker pool. -/
structure RoyaltyOutcome where
  credits : List (Staking × Int)
  unallocated : Int
  deriving DecidableEq, Repr

/-- Modelled from the spec (section 4.3, onRevenueEvent): stakerPool =
totalAmount * royaltyShareBps / 10000; with no eligible position the
whole pool is unallocated; otherwise each eligible position receives its
pro-rata share of the pool rounded half to even, and the rounding
leftover goes to the position with the largest principal (tie-break
earliest stakedAt), so the credited shares sum exactly to the pool. -/
def onRevenueEvent (positions : List Staking) (totalAmount : Int)
    (royaltyShareBps : Int) : RoyaltyOutcome :=
  let pool := totalAmount * royaltyShareBps / 10000
  match eligiblePositions positions with
  | [] => { credits := [], unallocated := pool }
  | e :: rest =>
    let elig := e :: rest
    let total := (elig.map (fun p => p.amount)).sum
    let base := elig.map (fun p => (p, bround (pool * p.amount) total))
    let shareSum := (base.map (fun c => c.2)).sum
    { credits := creditLeftover (bestPos e rest) (pool - shareSum) base
      unallocated := 0 }

/-! Concrete database states used by the closed witness and
counterexample theorems. -/

def riffA : Riff := { id := 1, userId := 7 }

def riffB : Riff := { id := 2, userId := 7 }

def nftA : NFT := { id := 1, riffId := 1, enableStaking := true, ownerId := 7 }

def nftB : NFT := { id := 2, riffId := 2, enableStaking := false, ownerId := 7 }

/-- A locked staking record owned by user 3, unlocking at time 10. -/
def stakeRec1 : Staking :=
  { id := 1, amount := 500, riffId := 1, userId := 3, stakedAt := 0,
    unlockAt := 10, royaltiesEarned := 0, status := "locked" }

/-- An already withdrawn staking record owned by user 4. -/
def stakeRecW : Staking :=
  { id := 2, amount := 200, riffId := 1, userId := 4, stakedAt := 0,
    unlockAt := 10, royaltiesEarned := 0, status := "withdrawn" }

def walletA : Wallet := { id := 1, address := "0xabc", userId := 3 }

def dbW : DB :=
  { riffs := [riffA, riffB], nfts := [nftA, nftB],
    stakings := [stakeRec1, stakeRecW], wallets := [walletA] }

/-- The record a stake of amount 0 at time 0 on riff 1 creates in dbW. -/
def zeroAmountRec : Staking :=
  { id := 99, amount := 0, riffId := 1, userId := 3, stakedAt := 0,
    unlockAt := 7776000000, royaltiesEarned := 0, status := "locked" }

/-! ## Helper lemmas -/

/-- Updating the status of the row with id sid commutes with looking that
row up: the lookup in the updated table is the old lookup with its status
set to "withdrawn". -/
theorem find_setWithdrawn (l : List Staking) (sid : Nat) :
    (setWithdrawn l sid).find? (fun r => r.id == sid) =
      (l.find? (fun r => r.id == sid)).map
        (fun r => { r with status := "withdrawn" }) := by
  induction l with
  | nil => rfl
  | cons a l ih =>
    by_cases h : a.id = sid
    · simp [setWithdrawn, List.find?_cons, h]
    · simpa [setWithdrawn, List.find?_cons, h] using ih

/-! ## Claim theorems -/

/-- C1: an unstake by the owner strictly before unlockAt fails with the
period-not-over error and leaves the state unchanged; at or after
unlockAt, on a not yet withdrawn record, it succeeds, returns the record
with status "withdrawn", and the stored record has status "withdrawn". -/
theorem unstake_time_gating (db : DB) (sid : Nat) (now : Int) (r : Staking)
    (hfind : findStaking db sid = some r) :
    (now < r.unlockAt →
      unstake db r.userId sid now = (UnstakeResult.notOver r.unlockAt, db)) ∧
    (r.unlockAt ≤ now → r.status ≠ "withdrawn" →
      (unstake db r.userId sid now).1 =
          UnstakeResult.ok { r with status := "withdrawn" } ∧
      findStaking (unstake db r.userId sid now).2 sid =
          some { r with status := "withdrawn" }) := by
  constructor
  · intro hlt
    simp [unstake, hfind, hlt]
  · intro hge _hst
    have hnlt : ¬ now < r.unlockAt := not_lt.mpr hge
    refine ⟨by simp [unstake, hfind, hnlt], ?_⟩
    have hfind2 := hfind
    simp only [findStaking] at hfind2
    simp [unstake, hfind, hnlt, findStaking, find_setWithdrawn, hfind2]

/-- C1 witness: in the concrete state dbW, unstaking record 1 (owned by
user 3, unlockAt 10) at time 5 fails with the not-over error and at time
20 succeeds with status "withdrawn". -/
theorem unstake_time_gating_witness :
    unstake dbW 3 1 5 = (UnstakeResult.notOver 10, dbW) ∧
    (unstake dbW 3 1 20).1 =
      UnstakeResult.ok { stakeRec1 with status := "withdrawn" } := by
  constructor
  · exact (unstake_time_gating dbW 1 5 stakeRec1 rfl).1 (by decide)
  · exact ((unstake_time_gating dbW 1 20 stakeRec1 rfl).2 (by decide)
      (by decide)).1

/-- C2 counterexample: record 2 of dbW is already withdrawn, yet an
unstake by its owner (user 4) after the unlock date succeeds with 200
and the record, instead of failing with an AlreadyWithdrawn error; the
handler has no such check. -/
theorem unstake_already_withdrawn_cex :
    stakeRecW.status = "withdrawn" ∧
    (unstake dbW 4 2 100).1 = UnstakeResult.ok stakeRecW ∧
    (unstake dbW 4 2 100).2 = dbW := by decide

/-- C2 amended: on a record whose status is already "withdrawn", an
unstake by the owner at or after unlockAt does not fail: it succeeds
again, returning the record unchanged (the status write is a no-op on
it); no AlreadyWithdrawn error exists in the handler. -/
theorem unstake_already_withdrawn_amended (db : DB) (sid : Nat) (now : Int)
    (r : Staking) (hfind : findStaking db sid = some r)
    (hw : r.status = "withdrawn") (hge : r.unlockAt ≤ now) :
    unstake db r.userId sid now =
      (UnstakeResult.ok r,
       { db with stakings := setWithdrawn db.stakings sid }) := by
  have hnlt : ¬ now < r.unlockAt := not_lt.mpr hge
  have hr : { r with status := "withdrawn" } = r := by
    cases r
    simp_all
  simp [unstake, hfind, hnlt, hr]

/-- C2 amended witness: the concrete repeat unstake of record 2 in dbW. -/
theorem unstake_already_withdrawn_amended_witness :
    unstake dbW 4 2 100 =
      (UnstakeResult.ok stakeRecW,
       { dbW with stakings := setWithdrawn dbW.stakings 2 }) :=
  unstake_already_withdrawn_amended dbW 2 100 stakeRecW rfl rfl (by decide)

/-- C3 counterexample: a stake of amount 0 on riff 1 of dbW (minted,
staking enabled) does not fail with an invalid-amount error: it creates
a staking record of amount 0; the handler has no amount validation. -/
theorem stake_zero_amount_cex :
    zeroAmountRec.amount ≤ 0 ∧
    (stake dbW 3 1 0 0 99).1 = StakeResult.created zeroAmountRec ∧
    (stake dbW 3 1 0 0 99).2.stakings = dbW.stakings ++ [zeroAmountRec] := by
  decide

/-- C3 amended: the stake handler validates only the riff (exists, is
minted, staking enabled) and never the amount: for every amount,
including 0 and negatives, the request succeeds and appends a staking
record with exactly that amount. -/
theorem stake_no_amount_validation (db : DB) (c rid : Nat)
    (amount now : Int) (newId : Nat) (riff : Riff) (nft : NFT)
    (hriff : findRiff db rid = some riff)
    (hnft : findNFTByRiff db rid = some nft)
    (hen : nft.enableStaking = true) :
    (stake db c rid amount now newId).1 =
      StakeResult.created
        { id := newId, amount := amount, riffId := rid, userId := c,
          stakedAt := now, unlockAt := now + lockDays * msPerDay,
          royaltiesEarned := 0, status := "locked" } ∧
    (stake db c rid amount now newId).2.stakings =
      db.stakings ++
        [{ id := newId, amount := amount, riffId := rid, userId := c,
           stakedAt := now, unlockAt := now + lockDays * msPerDay,
           royaltiesEarned := 0, status := "locked" }] := by
  simp [stake, hriff, hnft, hen]

/-- C3 amended witness: a stake of amount -5 on riff 1 of dbW succeeds
and creates the record with amount -5. -/
theorem stake_no_amount_validation_witness :
    (stake dbW 3 1 (-5) 0 99).1 =
      StakeResult.created
        { id := 99, amount := -5, riffId := 1, userId := 3, stakedAt := 0,
          unlockAt := 0 + lockDays * msPerDay, royaltiesEarned := 0,
          status := "locked" } ∧
    (stake dbW 3 1 (-5) 0 99).2.stakings =
      dbW.stakings ++
        [{ id := 99, amount := -5, riffId := 1, userId := 3, stakedAt := 0,
           unlockAt := 0 + lockDays * msPerDay, royaltiesEarned := 0,
           status := "locked" }] :=
  stake_no_amount_validation dbW 3 1 (-5) 0 99 riffA nftA rfl rfl rfl

/-- C4: when the NFT of the riff has enableStaking false, a stake
request fails with the staking-disabled error and the state is
unchanged; and unstake (the lifecycle of existing positions) never reads
the NFT table, so its outcome and the resulting staking records are
identical under any change of the NFT table, the flag included. -/
theorem staking_disabled_gate (db : DB) (c rid : Nat) (amount now : Int)
    (newId : Nat) (riff : Riff) (nft : NFT)
    (hriff : findRiff db rid = some riff)
    (hnft : findNFTByRiff db rid = some nft)
    (hdis : nft.enableStaking = false) :
    stake db c rid amount now newId = (StakeResult.stakingDisabled, db) ∧
    (∀ (nfts2 : List NFT) (c2 sid : Nat) (now2 : Int),
      (unstake { db with nfts := nfts2 } c2 sid now2).1 =
          (unstake db c2 sid now2).1 ∧
      (unstake { db with nfts := nfts2 } c2 sid now2).2.stakings =
          (unstake db c2 sid now2).2.stakings) := by
  constructor
  · simp [stake, hriff, hnft, hdis]
  · intro nfts2 c2 sid now2
    have hfs : findStaking { db with nfts := nfts2 } sid =
        findStaking db sid := rfl
    cases hf : findStaking db sid with
    | none => simp [unstake, hf, hfs]
    | some r =>
      by_cases hc : r.userId ≠ c2
      · simp [unstake, hf, hfs, hc]
      · by_cases hlt : now2 < r.unlockAt
        · simp [unstake, hf, hfs, hc, hlt]
        · simp [unstake, hf, hfs, hc, hlt]

/-- C4 witness: riff 2 of dbW has its NFT flag enableStaking false, and
a stake request on it fails with the staking-disabled error, leaving the
state unchanged. -/
theorem staking_disabled_gate_witness :
    stake dbW 3 2 100 0 99 = (StakeResult.stakingDisabled, dbW) :=
  (staking_disabled_gate dbW 3 2 100 0 99 riffB nftB rfl rfl rfl).1

/-- The reduce of the stats handler, with any accumulator, is the
accumulator plus the sum of the amounts. -/
theorem foldl_add_amount (l : List Staking) (init : Int) :
    l.foldl (fun sum r => sum + r.amount) init =
      init + (l.map (fun r => r.amount)).sum := by
  induction l generalizing init with
  | nil => simp
  | cons a l ih => simp [List.foldl_cons, ih, add_assoc]

/-- C5: the stats handler returns exactly the sum of amount over the
riff records whose status is not "withdrawn", the number of distinct
userIds among them, and their count; no record it aggregates over is
withdrawn. -/
theorem getStats_spec (db : DB) (rid : Nat) :
    (getStats db rid).totalStaked = totalStakedSpec db rid ∧
    (getStats db rid).stakersCount = stakerCountSpec db rid ∧
    (getStats db rid).records = positionCountSpec db rid ∧
    ∀ r ∈ statsRecords db rid, r.status ≠ "withdrawn" := by
  refine ⟨?_, ?_, rfl, ?_⟩
  · simp [getStats, totalStakedSpec, statsRecords, foldl_add_amount]
  · simp [getStats, stakerCountSpec, statsRecords, List.card_toFinset]
  · intro r hr
    have := List.of_mem_filter hr
    simp at this
    exact this.2

/-- C6: every record a successful stake creates has unlockAt equal to
stakedAt plus the 90 day lock, hence unlockAt strictly after stakedAt,
and the record is stored. -/
theorem stake_unlock_ninety_days (db : DB) (c rid : Nat)
    (amount now : Int) (newId : Nat) (r : Staking) (db2 : DB)
    (h : stake db c rid amount now newId = (StakeResult.created r, db2)) :
    r.unlockAt = r.stakedAt + lockDays * msPerDay ∧
    r.stakedAt < r.unlockAt ∧ r ∈ db2.stakings := by
  unfold stake at h
  cases hriff : findRiff db rid with
  | none => rw [hriff] at h; simp at h
  | some riff =>
    rw [hriff] at h
    cases hnft : findNFTByRiff db rid with
    | none => rw [hnft] at h; simp at h
    | some nft =>
      rw [hnft] at h
      by_cases hen : nft.enableStaking = false
      · simp [hen] at h
      · simp only [hen, if_false] at h
        obtain ⟨h1, h2⟩ := Prod.mk.injEq .. ▸ h
        obtain rfl := (StakeResult.created.injEq .. ▸ h1).symm
        refine ⟨rfl, ?_, ?_⟩
        · show now < now + lockDays * msPerDay
          have : (0 : Int) < lockDays * msPerDay := by decide
          omega
        · rw [← h2]
          simp

/-- C6 witness: the concrete record created by staking 0 at time 0 on
riff 1 of dbW unlocks 90 days after its stakedAt. -/
theorem stake_unlock_ninety_days_witness :
    zeroAmountRec.unlockAt = zeroAmountRec.stakedAt + lockDays * msPerDay ∧
    zeroAmountRec.stakedAt < zeroAmountRec.unlockAt ∧
    zeroAmountRec ∈
      (DB.mk dbW.riffs dbW.nfts (dbW.stakings ++ [zeroAmountRec])
        dbW.wallets).stakings :=
  stake_unlock_ninety_days dbW 3 1 0 0 99 zeroAmountRec
    (DB.mk dbW.riffs dbW.nfts (dbW.stakings ++ [zeroAmountRec]) dbW.wallets)
    (by decide)

/-- C7: unstake is atomic and frame-preserving: on every failing path
the whole state is returned unchanged; on success the new state is the
old one with only the status write applied; and that write changes no
field but status of any record. -/
theorem unstake_frame (db : DB) (c sid : Nat) (now : Int) :
    ((∀ r, (unstake db c sid now).1 ≠ UnstakeResult.ok r) →
      (unstake db c sid now).2 = db) ∧
    ((∃ r, (unstake db c sid now).1 = UnstakeResult.ok r) →
      (unstake db c sid now).2 =
        { db with stakings := setWithdrawn db.stakings sid }) ∧
    (∀ rs : List Staking,
      List.Forall₂
        (fun a b => a.id = b.id ∧ a.amount = b.amount ∧
          a.riffId = b.riffId ∧ a.userId = b.userId ∧
          a.stakedAt = b.stakedAt ∧ a.unlockAt = b.unlockAt ∧
          a.royaltiesEarned = b.royaltiesEarned)
        rs (setWithdrawn rs sid)) := by
  refine ⟨?_, ?_, ?_⟩
  · intro hfail
    cases hf : findStaking db sid with
    | none => simp [unstake, hf]
    | some r =>
      by_cases hc : r.userId ≠ c
      · simp [unstake, hf, hc]
      · by_cases hlt : now < r.unlockAt
        · simp [unstake, hf, hc, hlt]
        · exfalso
          exact hfail { r with status := "withdrawn" }
            (by simp [unstake, hf, hc, hlt])
  · rintro ⟨r, hr⟩
    cases hf : findStaking db sid with
    | none => simp [unstake, hf] at hr
    | some r0 =>
      by_cases hc : r0.userId ≠ c
      · simp [unstake, hf, hc] at hr
      · by_cases hlt : now < r0.unlockAt
        · simp [unstake, hf, hc, hlt] at hr
        · simp [unstake, hf, hc, hlt]
  · intro rs
    simp only [setWithdrawn, List.forall₂_map_right_iff]
    rw [List.forall₂_same]
    intro x _hx
    by_cases h : x.id = sid <;> simp [h]

/-- The position the left scan keeps is one of the candidates. -/
theorem bestPos_mem (b : Staking) (l : List Staking) :
    bestPos b l ∈ b :: l := by
  induction l generalizing b with
  | nil => simp [bestPos]
  | cons p rest ih =>
    show bestPos (if betterPos p b then p else b) rest ∈ b :: p :: rest
    rcases List.mem_cons.mp (ih (if betterPos p b then p else b)) with h1 | h1
    · rw [h1]
      by_cases hb : betterPos p b <;> simp [hb]
    · exact List.mem_cons_of_mem _ (List.mem_cons_of_mem _ h1)

/-- Crediting the leftover does not change which positions are
credited. -/
theorem creditLeftover_fst (best : Staking) (x : Int)
    (l : List (Staking × Int)) :
    (creditLeftover best x l).map Prod.fst = l.map Prod.fst := by
  induction l with
  | nil => rfl
  | cons a l ih =>
    obtain ⟨p, s⟩ := a
    by_cases h : p = best <;> simp [creditLeftover, h, ih]

/-- Crediting the leftover to a position that is credited adds exactly
the leftover to the total of the shares. -/
theorem creditLeftover_sum (best : Staking) (x : Int)
    (l : List (Staking × Int)) (hmem : best ∈ l.map Prod.fst) :
    ((creditLeftover best x l).map Prod.snd).sum =
      (l.map Prod.snd).sum + x := by
  induction l with
  | nil => simp at hmem
  | cons a l ih =>
    obtain ⟨p, s⟩ := a
    by_cases h : p = best
    · simp [creditLeftover, h]
      ring
    · have hmem2 : best ∈ l.map Prod.fst := by
        rw [List.map_cons] at hmem
        rcases List.mem_cons.mp hmem with h1 | h1
        · exact absurd h1.symm h
        · exact h1
      simp [creditLeftover, h, ih hmem2]
      ring

/-- Pairing each position with its share and projecting the positions
back gives the original list. -/
theorem map_fst_pair (f : Staking → Int) (l : List Staking) :
    (l.map (fun p => (p, f p))).map Prod.fst = l := by
  induction l with
  | nil => rfl
  | cons a l ih => simp only [List.map_cons, ih]

/-- C8: royalty distribution is exact: the credited shares plus the
unallocated remainder always sum to stakerPool = totalAmount *
royaltyShareBps / 10000; exactly the eligible (non-withdrawn) positions
are credited; and the pool is unallocated precisely when no position is
eligible. -/
theorem royalty_rounding_exact (positions : List Staking)
    (totalAmount bps : Int) :
    (((onRevenueEvent positions totalAmount bps).credits.map
          Prod.snd).sum +
        (onRevenueEvent positions totalAmount bps).unallocated =
      totalAmount * bps / 10000) ∧
    ((onRevenueEvent positions totalAmount bps).credits.map Prod.fst =
      eligiblePositions positions) ∧
    ((onRevenueEvent positions totalAmount bps).unallocated =
      if eligiblePositions positions = [] then totalAmount * bps / 10000
      else 0) := by
  cases he : eligiblePositions positions with
  | nil => simp [onRevenueEvent, he]
  | cons e rest =>
    have hbest := bestPos_mem e rest
    have hfst := map_fst_pair
      (fun p => bround (totalAmount * bps / 10000 * p.amount)
        (((e :: rest).map (fun p => p.amount)).sum)) (e :: rest)
    simp only [onRevenueEvent, he]
    refine ⟨?_, ?_, by simp⟩
    · rw [creditLeftover_sum _ _ _ (by rw [hfst]; exact hbest)]
      ring
    · rw [creditLeftover_fst, hfst]

/-- C9: connecting a wallet address that is already linked to some user
fails with the already-connected error and changes nothing, and the
operation preserves the invariant that each address appears on at most
one wallet row. -/
theorem connect_wallet_unique (db : DB) (c : Nat) (addr : String)
    (newId : Nat) (hnodup : (db.wallets.map Wallet.address).Nodup) :
    ((connectWallet db c addr newId).2.wallets.map Wallet.address).Nodup ∧
    (∀ w ∈ db.wallets, w.address = addr →
      connectWallet db c addr newId =
        (ConnectResult.alreadyConnected, db)) := by
  cases hf : findWalletByAddress db.wallets addr with
  | some w0 =>
    exact ⟨by simp [connectWallet, hf, hnodup],
      fun w _ _ => by simp [connectWallet, hf]⟩
  | none =>
    have haddr : ∀ w ∈ db.wallets, w.address ≠ addr := by
      simpa [findWalletByAddress, List.find?_eq_none] using hf
    refine ⟨?_, fun w hw hwa => absurd hwa (haddr w hw)⟩
    simp only [connectWallet, hf, List.map_append, List.map_cons,
      List.map_nil, List.nodup_append]
    refine ⟨hnodup, List.nodup_singleton _, ?_⟩
    intro a ha hb
    simp only [List.mem_map] at ha
    obtain ⟨w, hw, rfl⟩ := ha
    simp only [List.mem_singleton] at hb
    exact haddr w hw hb

/-- C9 witness: the address of walletA is already linked in dbW, so a
connect-wallet request for it by user 5 fails and changes nothing. -/
theorem connect_wallet_unique_witness :
    connectWallet dbW 5 "0xabc" 9 = (ConnectResult.alreadyConnected, dbW) :=
  (connect_wallet_unique dbW 5 "0xabc" 9 (by decide)).2 walletA
    (by decide) rfl

/-- C10: minting preserves the invariant that each riff has at most one
NFT row; whenever some NFT with the riffId already exists, no NFT is
created and the state is unchanged; and for a request by the riff owner
on an existing riff the failure is exactly the already-minted error. -/
theorem mint_unique_per_riff (db : DB) (c rid : Nat) (enable : Bool)
    (newId : Nat) (hnodup : (db.nfts.map NFT.riffId).Nodup) :
    ((mintRiffNFT db c rid enable newId).2.nfts.map NFT.riffId).Nodup ∧
    (∀ n ∈ db.nfts, n.riffId = rid →
      (mintRiffNFT db c rid enable newId).2 = db ∧
      ∀ m, (mintRiffNFT db c rid enable newId).1 ≠ MintResult.minted m) ∧
    (∀ riff, findRiff db rid = some riff → riff.userId = c →
      ∀ n ∈ db.nfts, n.riffId = rid →
      mintRiffNFT db c rid enable newId =
        (MintResult.alreadyMinted, db)) := by
  cases hriff : findRiff db rid with
  | none =>
    refine ⟨by simp [mintRiffNFT, hriff, hnodup], ?_, ?_⟩
    · exact fun n hn hnr =>
        ⟨by simp [mintRiffNFT, hriff], fun m => by simp [mintRiffNFT, hriff]⟩
    · intro riff hr
      exact absurd hr (by simp)
  | some riff =>
    by_cases hc : riff.userId ≠ c
    · refine ⟨by simp [mintRiffNFT, hriff, hc, hnodup], ?_, ?_⟩
      · exact fun n hn hnr =>
          ⟨by simp [mintRiffNFT, hriff, hc],
           fun m => by simp [mintRiffNFT, hriff, hc]⟩
      · intro riff2 hr2 hu2 n hn hnr
        injection hr2 with h
        subst h
        exact absurd hu2 hc
    · have hc2 : riff.userId = c := not_ne_iff.mp hc
      cases hnft : findNFTByRiff db rid with
      | some n0 =>
        refine ⟨by simp [mintRiffNFT, hriff, hc2, hnft, hnodup], ?_, ?_⟩
        · exact fun n hn hnr =>
            ⟨by simp [mintRiffNFT, hriff, hc2, hnft],
             fun m => by simp [mintRiffNFT, hriff, hc2, hnft]⟩
        · intro riff2 hr2 hu2 n hn hnr
          simp [mintRiffNFT, hriff, hc2, hnft]
      | none =>
        have hno : ∀ n ∈ db.nfts, n.riffId ≠ rid := by
          simpa [findNFTByRiff, List.find?_eq_none] using hnft
        have hstep : mintRiffNFT db c rid enable newId =
            (MintResult.minted
              { id := newId, riffId := rid, enableStaking := enable,
                ownerId := c },
             { db with nfts := db.nfts ++
               [{ id := newId, riffId := rid, enableStaking := enable,
                  ownerId := c }] }) := by
          simp [mintRiffNFT, hriff, hnft, hc2]
        refine ⟨?_, ?_, ?_⟩
        · rw [hstep]
          simp only [List.map_append, List.map_cons, List.map_nil,
            List.nodup_append]
          refine ⟨hnodup, List.nodup_singleton _, ?_⟩
          intro a ha hb
          simp only [List.mem_map] at ha
          obtain ⟨n, hn, rfl⟩ := ha
          simp only [List.mem_singleton] at hb
          exact hno n hn hb
        · exact fun n hn hnr => absurd hnr (hno n hn)
        · exact fun riff2 hr2 hu2 n hn hnr => absurd hnr (hno n hn)

/-- C10 witness: riff 1 of dbW is already minted (nftA), so a mint
request by its owner, user 7, fails with the already-minted error and
changes nothing. -/
theorem mint_unique_per_riff_witness :
    mintRiffNFT dbW 7 1 true 9 = (MintResult.alreadyMinted, dbW) := by
  have h := mint_unique_per_riff dbW 7 1 true 9 (by decide)
  exact h.2.2 riffA rfl rfl nftA (by decide) rfl

end RiffBlock
